import Mathlib

/-!
Shallow embedding of the core of the Reeds-Shepp path visualizer
(`src/src/main.rs`): the coordinate transforms, the hit tester, the path
interpolation engine, and the pose-editing drag logic. All `f64`/`f32`
arithmetic is modelled over the reals; the external planning crate
(`reeds_shepp_lib`) is treated as a black box, exactly as the spec
prescribes.
-/

/-- Vehicle pose: position and heading in world units / degrees
(struct `Pose` of the library, re-exported by `main.rs`). -/
structure Pose where
  x : ℝ
  y : ℝ
  theta_degree : ℝ

/-- Travel direction of a path segment. -/
inductive Gear where
  | Forward
  | Backwards

/-- Curvature class of a path segment. -/
inductive Steering where
  | Straight
  | Left
  | Right

/-- One motion segment: direction, curvature class, magnitude. -/
structure PathElement where
  gear : Gear
  steering : Steering
  param : ℝ

/-- A path is an ordered list of segments (type `Path` in the source;
renamed here because Mathlib already declares a root `Path`). -/
abbrev RSPath := List PathElement

/-- A 2D point of the pixel frame (macroquad `Vec2`, modelled over ℝ). -/
abbrev Vec2 := ℝ × ℝ

/-- Which handle is grabbed during free-form editing. -/
inductive ModifyDragTarget where
  | StartBody
  | StartAngle
  | EndBody
  | EndAngle

/-- Ephemeral drag data during initial angle definition. -/
structure InitialDragState where
  start_pos : Vec2
  current_pos : Vec2

def WINDOW_WIDTH : ℝ := 1024

def WINDOW_HEIGHT : ℝ := 768

def CAR_WIDTH : ℝ := 30

def CAR_LENGTH : ℝ := 50

def PATH_RESOLUTION : ℝ := 30

def TURNING_RADIUS : ℝ := 1

def DRAW_SCALE : ℝ := 50

def HEADLIGHT_SIZE_SCREEN : ℝ := 8

/-- Rust `f64::to_radians`. -/
noncomputable def to_radians (deg : ℝ) : ℝ := deg * (Real.pi / 180)

/-- Rust `f64::to_degrees`. -/
noncomputable def to_degrees (rad : ℝ) : ℝ := rad * (180 / Real.pi)

/-- Modelled from the spec: `utils::normalize_angle_rad` lives in the
external `reeds_shepp_lib` crate, whose source is not part of this
repository. The spec fixes the convention of normalizing a heading in
radians into `[0, 2π)`; this is that reduction. -/
noncomputable def normalize_angle_rad (t : ℝ) : ℝ :=
  t - 2 * Real.pi * ⌊t / (2 * Real.pi)⌋

/-- Rust `f64::atan2` (`self = y`, argument `= x`): the angle of the
vector `(x, y)` in `(-π, π]`, with `atan2 0 0 = 0`. -/
noncomputable def atan2 (y x : ℝ) : ℝ := Complex.arg ⟨x, y⟩

/-- `State::screen_to_world` (`main.rs` lines 119-124). -/
noncomputable def screen_to_world (screen_pos : Vec2) : ℝ × ℝ :=
  ((screen_pos.1 - WINDOW_WIDTH / 2) / DRAW_SCALE,
   (WINDOW_HEIGHT / 2 - screen_pos.2) / DRAW_SCALE)

/-- `State::world_to_screen_static` (`main.rs` lines 126-131). -/
noncomputable def world_to_screen_static (world_x world_y : ℝ) : Vec2 :=
  (world_x * DRAW_SCALE + WINDOW_WIDTH / 2,
   WINDOW_HEIGHT / 2 - world_y * DRAW_SCALE)

open Classical in
/-- `State::calculate_initial_drag_angle` (`main.rs` lines 133-143). -/
noncomputable def calculate_initial_drag_angle
    (drag_state_initial : Option InitialDragState) : Option ℝ :=
  match drag_state_initial with
  | none => none
  | some drag =>
      let dx := drag.current_pos.1 - drag.start_pos.1
      let dy := drag.current_pos.2 - drag.start_pos.2
      if dx ^ 2 + dy ^ 2 > 5 * 5 then
        some (to_degrees (-(atan2 dy dx)))
      else none

/-- The angle application of `main` during `DefiningStartAngle` /
`DefiningEndAngle` (`main.rs` lines 529-533, 563-567): the heading is
overwritten only when `calculate_initial_drag_angle` yields a value. -/
noncomputable def apply_initial_angle (pose : Pose)
    (drag : Option InitialDragState) : Pose :=
  match calculate_initial_drag_angle drag with
  | some angle => { pose with theta_degree := angle }
  | none => pose

/-- `State::check_body_hit` (`main.rs` lines 145-156): oriented-rectangle
footprint test in the local frame of the pose. -/
def check_body_hit (world_click_pos : ℝ × ℝ) (pose : Pose) : Prop :=
  let angle_rad := to_radians pose.theta_degree
  let dx := world_click_pos.1 - pose.x
  let dy := world_click_pos.2 - pose.y
  let local_x := dx * Real.cos angle_rad + dy * Real.sin angle_rad
  let local_y := -dx * Real.sin angle_rad + dy * Real.cos angle_rad
  |local_x| ≤ CAR_LENGTH / DRAW_SCALE / 2 ∧ |local_y| ≤ CAR_WIDTH / DRAW_SCALE / 2

/-- `State::get_headlight_world_pos` (`main.rs` lines 158-165). -/
noncomputable def get_headlight_world_pos (pose : Pose) : ℝ × ℝ :=
  (pose.x + CAR_LENGTH / DRAW_SCALE / 2 * Real.cos (to_radians pose.theta_degree),
   pose.y + CAR_LENGTH / DRAW_SCALE / 2 * Real.sin (to_radians pose.theta_degree))

/-- `State::check_headlight_hit` (`main.rs` lines 167-174). -/
def check_headlight_hit (world_click_pos : ℝ × ℝ) (pose : Pose) : Prop :=
  let dx := world_click_pos.1 - (get_headlight_world_pos pose).1
  let dy := world_click_pos.2 - (get_headlight_world_pos pose).2
  dx * dx + dy * dy <
    (HEADLIGHT_SIZE_SCREEN / DRAW_SCALE * 1.5) * (HEADLIGHT_SIZE_SCREEN / DRAW_SCALE * 1.5)

/-- `gear_mult` of `generate_path_points` (`main.rs` lines 251-254). -/
def gear_mult : Gear → ℝ
  | .Forward => 1
  | .Backwards => -1

/-- One iteration of the inner substep loop of `generate_path_points`
(`main.rs` lines 260-287) on the running world pose `(x, y, theta_rad)`. -/
noncomputable def substep (steering : Steering) (param : ℝ) (num_steps : ℕ)
    (gear : ℝ) (p : ℝ × ℝ × ℝ) : ℝ × ℝ × ℝ :=
  match steering with
  | .Straight =>
      let dist_step := param / num_steps * gear
      (p.1 + dist_step * Real.cos p.2.2, p.2.1 + dist_step * Real.sin p.2.2, p.2.2)
  | .Left =>
      let angle_step := param / num_steps * gear
      let next_theta := normalize_angle_rad (p.2.2 + angle_step)
      (p.1 + TURNING_RADIUS * (Real.sin next_theta - Real.sin p.2.2),
       p.2.1 + TURNING_RADIUS * (Real.cos p.2.2 - Real.cos next_theta),
       next_theta)
  | .Right =>
      let angle_step := param / num_steps * gear
      let next_theta := normalize_angle_rad (p.2.2 - angle_step)
      (p.1 + TURNING_RADIUS * (Real.sin p.2.2 - Real.sin next_theta),
       p.2.1 + TURNING_RADIUS * (Real.cos next_theta - Real.cos p.2.2),
       next_theta)

/-- The substep loop `for _i in 1..=num_steps` of `generate_path_points`:
returns the final running pose together with the points pushed, in push
order (one screen-projected point after every substep). -/
noncomputable def runSteps (steering : Steering) (param : ℝ) (num_steps : ℕ)
    (gear : ℝ) : ℕ → ℝ × ℝ × ℝ → (ℝ × ℝ × ℝ) × List Vec2
  | 0, p => (p, [])
  | k + 1, p =>
      let p2 := substep steering param num_steps gear p
      let rest := runSteps steering param num_steps gear k p2
      (rest.1, world_to_screen_static p2.1 p2.2.1 :: rest.2)

open Classical in
/-- Processing of one `PathElement` by `generate_path_points`
(`main.rs` lines 241-290): the epsilon skip, the step count
`ceil(length_for_res * resolution).max(1.0)`, and the substep loop. -/
noncomputable def processElement (resolution : ℝ) (p : ℝ × ℝ × ℝ)
    (element : PathElement) : (ℝ × ℝ × ℝ) × List Vec2 :=
  if element.param < 1 / 10 ^ 10 then (p, [])
  else
    let length_for_res :=
      match element.steering with
      | .Straight => element.param
      | .Left | .Right => |element.param| * TURNING_RADIUS
    let num_steps := max 1 ⌈length_for_res * resolution⌉₊
    runSteps element.steering element.param num_steps (gear_mult element.gear) num_steps p

/-- The `for element in path` loop of `generate_path_points`, threading the
running world pose and concatenating the pushed points. -/
noncomputable def interpLoop (resolution : ℝ) :
    ℝ × ℝ × ℝ → RSPath → (ℝ × ℝ × ℝ) × List Vec2
  | p, [] => (p, [])
  | p, element :: rest =>
      let r := processElement resolution p element
      let r2 := interpLoop resolution r.1 rest
      (r2.1, r.2 ++ r2.2)

/-- The initial running world pose of `generate_path_points`
(`main.rs` lines 235-237). -/
noncomputable def start_state (start_pose : Pose) : ℝ × ℝ × ℝ :=
  (start_pose.x, start_pose.y,
   normalize_angle_rad (to_radians start_pose.theta_degree))

/-- `generate_path_points` (`main.rs` lines 224-292): the empty-path early
return, the initial push of the start point, then the segment loop. The
unused `_end_pose` argument of the source is dropped. -/
noncomputable def generate_path_points (start_pose : Pose) (path : RSPath)
    (resolution : ℝ) : List Vec2 :=
  match path with
  | [] => []
  | element :: rest =>
      world_to_screen_static start_pose.x start_pose.y ::
        (interpLoop resolution (start_state start_pose) (element :: rest)).2

/-- The final running world pose `(current_x, current_y, current_theta_rad)`
reached at the end of `generate_path_points`. -/
noncomputable def interp_final_pose (start_pose : Pose) (path : RSPath)
    (resolution : ℝ) : ℝ × ℝ × ℝ :=
  (interpLoop resolution (start_state start_pose) path).1

/-- Interface of the external planning crate (`reeds_shepp_lib`), consumed
as a black box exactly as the spec prescribes: change of basis, the table
`PATH_FNS` of canonical path functions, and the two symmetry transforms. -/
structure PlannerLib where
  change_of_basis : Pose → Pose → Pose
  path_fns : ℕ → ℝ → ℝ → ℝ → RSPath
  timeflip : RSPath → RSPath
  reflect : RSPath → RSPath

/-- Interaction phase of the editor. -/
inductive AppState where
  | PlacingStart
  | DefiningStartAngle
  | PlacingEnd
  | DefiningEndAngle
  | DisplayingPaths

/-- The editor state (struct `State` in the source); the cached UI label
strings, pure presentation plumbing, are omitted. -/
structure State where
  app_state : AppState
  start_pose : Option Pose
  end_pose : Option Pose
  drag_state_initial : Option InitialDragState
  dragging_modify : Option ModifyDragTarget
  selected_path_index : ℕ
  reflect_path : Bool
  timeflip_path : Bool
  current_path_points : Option (List Vec2)
  current_raw_path : Option RSPath

/-- `State::calculate_selected_path` (`main.rs` lines 176-221),
parameterized by the external planning crate `lib`: clear both derived
buffers, and only when both poses are present and both the computed path
and its point list are non-empty, store them. -/
noncomputable def calculate_selected_path (lib : PlannerLib) (s : State) : State :=
  let s0 := { s with current_path_points := none, current_raw_path := none }
  match s.start_pose, s.end_pose with
  | some start, some epose =>
      let rel := lib.change_of_basis start epose
      let y1 := if s.reflect_path then -rel.y else rel.y
      let t1 := if s.reflect_path then -rel.theta_degree else rel.theta_degree
      let x2 := if s.timeflip_path then -rel.x else rel.x
      let t2 := if s.timeflip_path then
          (if s.reflect_path then t1 else -t1) else t1
      let p0 := lib.path_fns s.selected_path_index x2 y1 t2
      let p1 := if s.timeflip_path then lib.timeflip p0 else p0
      let p2 := if s.reflect_path then lib.reflect p1 else p1
      if p2.isEmpty then s0
      else
        let points := generate_path_points start p2 PATH_RESOLUTION
        if points.isEmpty then s0
        else { s0 with current_path_points := some points,
                       current_raw_path := some p2 }
  | _, _ => s0

open Classical in
/-- The drag-target selection performed on a pointer press outside the UI
region in `DisplayingPaths` (`main.rs` lines 582-613): the sequential
`target_found` chain over headlight and body hits of the two poses. -/
noncomputable def select_drag_target (start_pose end_pose : Option Pose)
    (world_click : ℝ × ℝ) : Option ModifyDragTarget :=
  if ∃ p ∈ start_pose, check_headlight_hit world_click p then some .StartAngle
  else if ∃ p ∈ end_pose, check_headlight_hit world_click p then some .EndAngle
  else if ∃ p ∈ start_pose, check_body_hit world_click p then some .StartBody
  else if ∃ p ∈ end_pose, check_body_hit world_click p then some .EndBody
  else none

open Classical in
/-- The heading recomputation of a free-form angle drag
(`main.rs` lines 631-650, identical for the start and the end pose):
update only when the pointer-to-center distance exceeds `1e-6`. -/
noncomputable def apply_angle_drag (pose : Pose) (world_x world_y : ℝ) : Pose :=
  let dx := world_x - pose.x
  let dy := world_y - pose.y
  if Real.sqrt (dx ^ 2 + dy ^ 2) > 1 / 10 ^ 6 then
    { pose with theta_degree := to_degrees (atan2 dy dx) }
  else pose

/-- A degenerate instance of the planner interface, used to instantiate
general theorems at concrete inputs. -/
noncomputable def trivialLib : PlannerLib :=
  { change_of_basis := fun _ _ => ⟨0, 0, 0⟩
    path_fns := fun _ _ _ _ => []
    timeflip := fun p => p
    reflect := fun p => p }

theorem normalize_angle_rad_add_int (t : ℝ) :
    ∃ m : ℤ, normalize_angle_rad t = t + 2 * Real.pi * m :=
  ⟨-⌊t / (2 * Real.pi)⌋, by unfold normalize_angle_rad; push_cast; ring⟩

theorem normalize_angle_rad_mem (t : ℝ) :
    normalize_angle_rad t ∈ Set.Ico 0 (2 * Real.pi) := by
  unfold normalize_angle_rad
  have h2 : t = t / (2 * Real.pi) * (2 * Real.pi) := by
    field_simp
  constructor
  · have h1 := Int.floor_le (t / (2 * Real.pi))
    nlinarith [Real.pi_pos]
  · have h1 := Int.lt_floor_add_one (t / (2 * Real.pi))
    nlinarith [Real.pi_pos]

theorem sin_normalize_angle_rad (t : ℝ) :
    Real.sin (normalize_angle_rad t) = Real.sin t := by
  obtain ⟨m, hm⟩ := normalize_angle_rad_add_int t
  rw [hm, show t + 2 * Real.pi * m = t + (m : ℝ) * (2 * Real.pi) by ring,
    Real.sin_add_int_mul_two_pi]

theorem cos_normalize_angle_rad (t : ℝ) :
    Real.cos (normalize_angle_rad t) = Real.cos t := by
  obtain ⟨m, hm⟩ := normalize_angle_rad_add_int t
  rw [hm, show t + 2 * Real.pi * m = t + (m : ℝ) * (2 * Real.pi) by ring,
    Real.cos_add_int_mul_two_pi]

/-- C3: for every world point, applying the world-to-frame transform and
then the frame-to-world transform recovers the point exactly (and the
converse composition is also the identity), with the fixed scale factor and
frame center, and frame Y strictly decreasing as world Y increases. -/
theorem coordinate_transform_inverse (x y wy wy2 : ℝ) (p : Vec2)
    (h : wy < wy2) :
    screen_to_world (world_to_screen_static x y) = (x, y) ∧
    world_to_screen_static (screen_to_world p).1 (screen_to_world p).2 = p ∧
    (world_to_screen_static x wy2).2 < (world_to_screen_static x wy).2 := by
  obtain ⟨p1, p2⟩ := p
  refine ⟨?_, ?_, ?_⟩
  · simp only [screen_to_world, world_to_screen_static, WINDOW_WIDTH,
      WINDOW_HEIGHT, DRAW_SCALE, Prod.mk.injEq]
    constructor <;> ring
  · simp only [screen_to_world, world_to_screen_static, WINDOW_WIDTH,
      WINDOW_HEIGHT, DRAW_SCALE, Prod.mk.injEq]
    constructor <;> ring
  · simp only [world_to_screen_static, DRAW_SCALE, WINDOW_HEIGHT]
    linarith

theorem coordinate_transform_inverse_witness :
    screen_to_world (world_to_screen_static 2 3) = (2, 3) ∧
    world_to_screen_static (screen_to_world (7, 8)).1 (screen_to_world (7, 8)).2 = (7, 8) ∧
    (world_to_screen_static 2 4).2 < (world_to_screen_static 2 3).2 :=
  coordinate_transform_inverse 2 3 3 4 (7, 8) (by norm_num)

/-- C5: interpolating an empty path returns the empty sequence (the code
fixes the empty-sequence convention of the stated contract). -/
theorem empty_path_interpolation (start_pose : Pose) (resolution : ℝ) :
    generate_path_points start_pose [] resolution = [] := rfl

/-- C7: a segment whose param is below the 1e-10 epsilon threshold is
skipped entirely: it contributes no points, leaves the running pose
unchanged, and the remaining segments are processed as if it were absent. -/
theorem epsilon_segment_skipped (resolution : ℝ) (p : ℝ × ℝ × ℝ)
    (element : PathElement) (rest : RSPath)
    (h : element.param < 1 / 10 ^ 10) :
    processElement resolution p element = (p, []) ∧
    interpLoop resolution p (element :: rest) = interpLoop resolution p rest := by
  have h1 : processElement resolution p element = (p, []) := by
    unfold processElement
    rw [if_pos h]
  refine ⟨h1, ?_⟩
  simp only [interpLoop, h1, List.nil_append]

theorem epsilon_segment_skipped_witness :
    processElement 30 (0, 0, 0) ⟨Gear.Forward, Steering.Straight, 0⟩ = ((0, 0, 0), []) ∧
    interpLoop 30 (0, 0, 0) [⟨Gear.Forward, Steering.Straight, 0⟩] =
      interpLoop 30 (0, 0, 0) [] :=
  epsilon_segment_skipped 30 (0, 0, 0) ⟨Gear.Forward, Steering.Straight, 0⟩ []
    (by norm_num)

/-- C9: a heading recomputed from a near-zero pointer vector is skipped:
the initial-drag angle is `none` (and the pose untouched) when the drag
distance does not exceed 5 pixels, and a free-form angle drag leaves the
heading unchanged when the pointer-to-center distance is at most 1e-6. -/
theorem near_zero_drag_skips_heading (drag : InitialDragState) (pose : Pose)
    (world_x world_y : ℝ)
    (h1 : (drag.current_pos.1 - drag.start_pos.1) ^ 2 +
      (drag.current_pos.2 - drag.start_pos.2) ^ 2 ≤ 5 * 5)
    (h2 : Real.sqrt ((world_x - pose.x) ^ 2 + (world_y - pose.y) ^ 2) ≤ 1 / 10 ^ 6) :
    calculate_initial_drag_angle (some drag) = none ∧
    apply_initial_angle pose (some drag) = pose ∧
    apply_angle_drag pose world_x world_y = pose := by
  have hc : calculate_initial_drag_angle (some drag) = none := by
    simp only [calculate_initial_drag_angle]
    rw [if_neg (not_lt.mpr h1)]
  refine ⟨hc, ?_, ?_⟩
  · unfold apply_initial_angle
    rw [hc]
  · unfold apply_angle_drag
    rw [if_neg (not_lt.mpr h2)]

theorem near_zero_drag_skips_heading_witness :
    calculate_initial_drag_angle (some ⟨(3, 4), (3, 4)⟩) = none ∧
    apply_initial_angle ⟨1, 2, 45⟩ (some ⟨(3, 4), (3, 4)⟩) = ⟨1, 2, 45⟩ ∧
    apply_angle_drag ⟨1, 2, 45⟩ 1 2 = ⟨1, 2, 45⟩ :=
  near_zero_drag_skips_heading ⟨(3, 4), (3, 4)⟩ ⟨1, 2, 45⟩ 1 2
    (by norm_num) (by norm_num)

/-- C6: with the fixed vehicle dimensions, the center of a pose is always a
body hit and never a headlight hit, and the computed handle position
(center offset by half the vehicle length along the heading) is always a
headlight hit. -/
theorem hit_test_containment (pose : Pose) :
    check_body_hit (pose.x, pose.y) pose ∧
    ¬ check_headlight_hit (pose.x, pose.y) pose ∧
    check_headlight_hit (get_headlight_world_pos pose) pose := by
  refine ⟨?_, ?_, ?_⟩
  · simp only [check_body_hit, CAR_LENGTH, CAR_WIDTH, DRAW_SCALE, sub_self,
      zero_mul, add_zero, zero_add, abs_zero, neg_zero]
    norm_num
  · intro hcon
    simp only [check_headlight_hit, get_headlight_world_pos, CAR_LENGTH,
      DRAW_SCALE, HEADLIGHT_SIZE_SCREEN] at hcon
    nlinarith [Real.sin_sq_add_cos_sq (to_radians pose.theta_degree)]
  · simp only [check_headlight_hit, get_headlight_world_pos, CAR_LENGTH,
      DRAW_SCALE, HEADLIGHT_SIZE_SCREEN, sub_self]
    norm_num

/-- C4: on a press with both poses present, the drag target is chosen with
headlight hits before body hits and, within a kind, the start pose before
the end pose: StartAngle, then EndAngle, then StartBody, then EndBody; the
result is a single optional target. -/
theorem drag_target_priority (ps pe : Pose) (w : ℝ × ℝ) :
    (check_headlight_hit w ps →
      select_drag_target (some ps) (some pe) w = some ModifyDragTarget.StartAngle) ∧
    (¬ check_headlight_hit w ps → check_headlight_hit w pe →
      select_drag_target (some ps) (some pe) w = some ModifyDragTarget.EndAngle) ∧
    (¬ check_headlight_hit w ps → ¬ check_headlight_hit w pe →
      check_body_hit w ps →
      select_drag_target (some ps) (some pe) w = some ModifyDragTarget.StartBody) ∧
    (¬ check_headlight_hit w ps → ¬ check_headlight_hit w pe →
      ¬ check_body_hit w ps → check_body_hit w pe →
      select_drag_target (some ps) (some pe) w = some ModifyDragTarget.EndBody) ∧
    (¬ check_headlight_hit w ps → ¬ check_headlight_hit w pe →
      ¬ check_body_hit w ps → ¬ check_body_hit w pe →
      select_drag_target (some ps) (some pe) w = none) := by
  unfold select_drag_target
  refine ⟨?_, ?_, ?_, ?_, ?_⟩ <;> intros <;>
    simp_all [Option.mem_def]

/-- Witness for C4 at a concrete click on the start headlight. -/
theorem drag_target_priority_witness :
    select_drag_target (some ⟨0, 0, 0⟩) (some ⟨10, 10, 0⟩) (0.5, 0) =
      some ModifyDragTarget.StartAngle :=
  (drag_target_priority ⟨0, 0, 0⟩ ⟨10, 10, 0⟩ (0.5, 0)).1 (by
    simp only [check_headlight_hit, get_headlight_world_pos, to_radians,
      CAR_LENGTH, DRAW_SCALE, HEADLIGHT_SIZE_SCREEN, zero_mul,
      Real.cos_zero, Real.sin_zero]
    norm_num)

/-- C8: when the pose pair is incomplete, path computation is skipped and
the derived buffers are cleared: after `calculate_selected_path` both the
stored point list and the stored raw path are `none`. -/
theorem incomplete_pose_clears_buffers (lib : PlannerLib) (s : State)
    (h : s.start_pose = none ∨ s.end_pose = none) :
    (calculate_selected_path lib s).current_path_points = none ∧
    (calculate_selected_path lib s).current_raw_path = none := by
  unfold calculate_selected_path
  cases hstart : s.start_pose <;> cases hend : s.end_pose <;>
    simp_all

theorem incomplete_pose_clears_buffers_witness :
    (calculate_selected_path trivialLib
      ⟨AppState.PlacingStart, none, none, none, none, 0, false, false, none, none⟩).current_path_points = none ∧
    (calculate_selected_path trivialLib
      ⟨AppState.PlacingStart, none, none, none, none, 0, false, false, none, none⟩).current_raw_path = none :=
  incomplete_pose_clears_buffers trivialLib
    ⟨AppState.PlacingStart, none, none, none, none, 0, false, false, none, none⟩
    (Or.inl rfl)

/-- C1: every substep of the interpolator updates the running world pose by
the closed-form circular-arc formulas, with `d = (param/num_steps) *
gear_sign` and `gear_sign = +1` for Forward, `-1` for Backwards: Straight
moves by `d` along the heading with no heading change; Left adds `d` to the
heading (up to the `2π`-periodic normalization) and moves by the chord
`Δx = R·(sin θ' − sin θ)`, `Δy = R·(cos θ − cos θ')`; Right mirrors Left. -/
theorem substep_closed_form (param : ℝ) (num_steps : ℕ) (g : Gear) (x y θ : ℝ) :
    (substep Steering.Straight param num_steps (gear_mult g) (x, y, θ) =
      (x + param / num_steps * gear_mult g * Real.cos θ,
       y + param / num_steps * gear_mult g * Real.sin θ, θ)) ∧
    ((substep Steering.Left param num_steps (gear_mult g) (x, y, θ)).1 =
      x + TURNING_RADIUS *
        (Real.sin (θ + param / num_steps * gear_mult g) - Real.sin θ) ∧
     (substep Steering.Left param num_steps (gear_mult g) (x, y, θ)).2.1 =
      y + TURNING_RADIUS *
        (Real.cos θ - Real.cos (θ + param / num_steps * gear_mult g)) ∧
     (∃ m : ℤ, (substep Steering.Left param num_steps (gear_mult g) (x, y, θ)).2.2 =
      θ + param / num_steps * gear_mult g + 2 * Real.pi * m)) ∧
    ((substep Steering.Right param num_steps (gear_mult g) (x, y, θ)).1 =
      x + TURNING_RADIUS *
        (Real.sin θ - Real.sin (θ - param / num_steps * gear_mult g)) ∧
     (substep Steering.Right param num_steps (gear_mult g) (x, y, θ)).2.1 =
      y + TURNING_RADIUS *
        (Real.cos (θ - param / num_steps * gear_mult g) - Real.cos θ) ∧
     (∃ m : ℤ, (substep Steering.Right param num_steps (gear_mult g) (x, y, θ)).2.2 =
      θ - param / num_steps * gear_mult g + 2 * Real.pi * m)) ∧
    gear_mult Gear.Forward = 1 ∧ gear_mult Gear.Backwards = -1 := by
  refine ⟨rfl, ⟨?_, ?_, ?_⟩, ⟨?_, ?_, ?_⟩, rfl, rfl⟩
  · show x + TURNING_RADIUS *
        (Real.sin (normalize_angle_rad (θ + param / num_steps * gear_mult g)) -
          Real.sin θ) = _
    rw [sin_normalize_angle_rad]
  · show y + TURNING_RADIUS *
        (Real.cos θ -
          Real.cos (normalize_angle_rad (θ + param / num_steps * gear_mult g))) = _
    rw [cos_normalize_angle_rad]
  · exact normalize_angle_rad_add_int (θ + param / num_steps * gear_mult g)
  · show x + TURNING_RADIUS *
        (Real.sin θ -
          Real.sin (normalize_angle_rad (θ - param / num_steps * gear_mult g))) = _
    rw [sin_normalize_angle_rad]
  · show y + TURNING_RADIUS *
        (Real.cos (normalize_angle_rad (θ - param / num_steps * gear_mult g)) -
          Real.cos θ) = _
    rw [cos_normalize_angle_rad]
  · exact normalize_angle_rad_add_int (θ - param / num_steps * gear_mult g)

theorem runSteps_left_state (param : ℝ) (ns : ℕ) (g : ℝ) :
    ∀ (k : ℕ) (x y θ : ℝ), ∃ m : ℤ,
      (runSteps Steering.Left param ns g k (x, y, θ)).1 =
        (x + TURNING_RADIUS * (Real.sin (θ + k * (param / ns * g)) - Real.sin θ),
         y + TURNING_RADIUS * (Real.cos θ - Real.cos (θ + k * (param / ns * g))),
         θ + k * (param / ns * g) + 2 * Real.pi * m) := by
  intro k
  induction k with
  | zero =>
      intro x y θ
      refine ⟨0, ?_⟩
      simp [runSteps]
  | succ k ih =>
      intro x y θ
      obtain ⟨m1, hm1⟩ := normalize_angle_rad_add_int (θ + param / ns * g)
      obtain ⟨m2, hm2⟩ := ih
        (x + TURNING_RADIUS *
          (Real.sin (normalize_angle_rad (θ + param / ns * g)) - Real.sin θ))
        (y + TURNING_RADIUS *
          (Real.cos θ - Real.cos (normalize_angle_rad (θ + param / ns * g))))
        (normalize_angle_rad (θ + param / ns * g))
      refine ⟨m1 + m2, ?_⟩
      have hstep : (runSteps Steering.Left param ns g (k + 1) (x, y, θ)).1 =
          (runSteps Steering.Left param ns g k
            (x + TURNING_RADIUS *
              (Real.sin (normalize_angle_rad (θ + param / ns * g)) - Real.sin θ),
             y + TURNING_RADIUS *
              (Real.cos θ - Real.cos (normalize_angle_rad (θ + param / ns * g))),
             normalize_angle_rad (θ + param / ns * g))).1 := rfl
      rw [hstep, hm2]
      have hsin : Real.sin (normalize_angle_rad (θ + param / ns * g) +
          k * (param / ns * g)) = Real.sin (θ + (k + 1 : ℕ) * (param / ns * g)) := by
        rw [hm1, show θ + param / ns * g + 2 * Real.pi * m1 + k * (param / ns * g) =
          (θ + ((k : ℝ) + 1) * (param / ns * g)) + (m1 : ℝ) * (2 * Real.pi) by ring,
          Real.sin_add_int_mul_two_pi]
        push_cast
        ring_nf
      have hcos : Real.cos (normalize_angle_rad (θ + param / ns * g) +
          k * (param / ns * g)) = Real.cos (θ + (k + 1 : ℕ) * (param / ns * g)) := by
        rw [hm1, show θ + param / ns * g + 2 * Real.pi * m1 + k * (param / ns * g) =
          (θ + ((k : ℝ) + 1) * (param / ns * g)) + (m1 : ℝ) * (2 * Real.pi) by ring,
          Real.cos_add_int_mul_two_pi]
        push_cast
        ring_nf
      simp only [Prod.mk.injEq]
      refine ⟨?_, ?_, ?_⟩
      · rw [hsin]
        rw [sin_normalize_angle_rad]
        ring
      · rw [hcos]
        rw [cos_normalize_angle_rad]
        ring
      · rw [hm1]
        push_cast
        ring

theorem runSteps_left_theta_mem (param : ℝ) (ns : ℕ) (g : ℝ) :
    ∀ (k : ℕ) (p : ℝ × ℝ × ℝ),
      (runSteps Steering.Left param ns g (k + 1) p).1.2.2 ∈
        Set.Ico 0 (2 * Real.pi) := by
  intro k
  induction k with
  | zero =>
      intro p
      show (substep Steering.Left param ns g p).2.2 ∈ _
      exact normalize_angle_rad_mem _
  | succ k ih =>
      intro p
      exact ih (substep Steering.Left param ns g p)

theorem runSteps_points_length (steering : Steering) (param : ℝ) (ns : ℕ)
    (g : ℝ) : ∀ (k : ℕ) (p : ℝ × ℝ × ℝ),
      ((runSteps steering param ns g k p).2).length = k := by
  intro k
  induction k with
  | zero => intro p; rfl
  | succ k ih =>
      intro p
      show (world_to_screen_static _ _ :: _).length = k + 1
      rw [List.length_cons, ih]

theorem runSteps_points_getLast (steering : Steering) (param : ℝ) (ns : ℕ)
    (g : ℝ) : ∀ (k : ℕ) (p : ℝ × ℝ × ℝ), 1 ≤ k →
      ((runSteps steering param ns g k p).2).getLast? =
        some (world_to_screen_static (runSteps steering param ns g k p).1.1
          (runSteps steering param ns g k p).1.2.1) := by
  intro k
  induction k with
  | zero => intro p h; omega
  | succ k ih =>
      intro p _
      cases k with
      | zero => rfl
      | succ k2 =>
          have htail := ih (substep steering param ns g p) (by omega)
          have hlen := runSteps_points_length steering param ns g (k2 + 1)
            (substep steering param ns g p)
          have hne : ((runSteps steering param ns g (k2 + 1)
              (substep steering param ns g p)).2) ≠ [] := by
            intro hnil
            rw [hnil] at hlen
            simp at hlen
          obtain ⟨b, l, hbl⟩ := List.exists_cons_of_ne_nil hne
          show (world_to_screen_static _ _ ::
            (runSteps steering param ns g (k2 + 1)
              (substep steering param ns g p)).2).getLast? = _
          rw [hbl, List.getLast?_cons_cons, ← hbl, htail]
          rfl

theorem left_quarter_final (ns : ℕ) (h : 1 ≤ ns) :
    (runSteps Steering.Left (Real.pi / 2) ns 1 ns (0, 0, 0)).1 =
      (1, 1, Real.pi / 2) := by
  obtain ⟨k, rfl⟩ : ∃ k, ns = k + 1 := ⟨ns - 1, by omega⟩
  obtain ⟨m, hm⟩ := runSteps_left_state (Real.pi / 2) (k + 1) 1 (k + 1) 0 0 0
  have hcast : ((k + 1 : ℕ) : ℝ) = (k : ℝ) + 1 := by push_cast; ring
  have hne : ((k : ℝ) + 1) ≠ 0 := by positivity
  have harg : (0 : ℝ) + ((k + 1 : ℕ) : ℝ) *
      (Real.pi / 2 / ((k + 1 : ℕ) : ℝ) * 1) = Real.pi / 2 := by
    rw [hcast]
    field_simp
    ring
  rw [harg] at hm
  have hmem := runSteps_left_theta_mem (Real.pi / 2) (k + 1) 1 k (0, 0, 0)
  rw [hm] at hmem
  simp only [Set.mem_Ico] at hmem
  have hm0 : m = 0 := by
    have hmlt : (m : ℝ) < 1 := by nlinarith [Real.pi_pos, hmem.1, hmem.2]
    have hmgt : (-1 : ℝ) < (m : ℝ) := by nlinarith [Real.pi_pos, hmem.1, hmem.2]
    have h1 : m < 1 := by exact_mod_cast hmlt
    have h2 : -1 < m := by exact_mod_cast hmgt
    omega
  rw [hm, hm0]
  simp [TURNING_RADIUS, Real.sin_pi_div_two, Real.cos_pi_div_two]

/-- C2: from start pose `(0, 0, 0°)`, a single Left-Forward segment with
`param = π/2` at the unit turning radius ends, for every resolution (hence
for every substep count), at world position `(1, 1)` with final heading
`π/2` radians (90°); the last generated point is the projection of
`(1, 1)`. -/
theorem quarter_turn_left_endpoint (resolution : ℝ) :
    interp_final_pose ⟨0, 0, 0⟩ [⟨Gear.Forward, Steering.Left, Real.pi / 2⟩]
      resolution = (1, 1, Real.pi / 2) ∧
    (generate_path_points ⟨0, 0, 0⟩ [⟨Gear.Forward, Steering.Left, Real.pi / 2⟩]
      resolution).getLast? = some (world_to_screen_static 1 1) := by
  have hstart : start_state ⟨0, 0, 0⟩ = (0, 0, 0) := by
    simp [start_state, to_radians, normalize_angle_rad]
  have hskip : ¬ ((⟨Gear.Forward, Steering.Left, Real.pi / 2⟩ :
      PathElement).param < 1 / 10 ^ 10) := by
    simp only [not_lt]
    show (1 : ℝ) / 10 ^ 10 ≤ Real.pi / 2
    nlinarith [Real.pi_gt_three]
  set NS := max 1 ⌈|Real.pi / 2| * TURNING_RADIUS * resolution⌉₊ with hNS
  have hNS1 : 1 ≤ NS := le_max_left _ _
  have hpe : processElement resolution (0, 0, 0)
      ⟨Gear.Forward, Steering.Left, Real.pi / 2⟩ =
      runSteps Steering.Left (Real.pi / 2) NS 1 NS (0, 0, 0) := by
    unfold processElement
    rw [if_neg hskip]
    rfl
  have hfinal := left_quarter_final NS hNS1
  have hloop1 : (interpLoop resolution (0, 0, 0)
      [⟨Gear.Forward, Steering.Left, Real.pi / 2⟩]).1 =
      (processElement resolution (0, 0, 0)
        ⟨Gear.Forward, Steering.Left, Real.pi / 2⟩).1 := rfl
  have hloop2 : (interpLoop resolution (0, 0, 0)
      [⟨Gear.Forward, Steering.Left, Real.pi / 2⟩]).2 =
      (processElement resolution (0, 0, 0)
        ⟨Gear.Forward, Steering.Left, Real.pi / 2⟩).2 ++ [] := rfl
  constructor
  · unfold interp_final_pose
    rw [hstart, hloop1, hpe, hfinal]
  · unfold generate_path_points
    rw [hstart]
    have hlast := runSteps_points_getLast Steering.Left (Real.pi / 2) NS 1 NS
      (0, 0, 0) hNS1
    rw [hfinal] at hlast
    have hlen := runSteps_points_length Steering.Left (Real.pi / 2) NS 1 NS
      (0, 0, 0)
    have hne2 : (runSteps Steering.Left (Real.pi / 2) NS 1 NS (0, 0, 0)).2 ≠ [] := by
      intro hnil
      rw [hnil] at hlen
      simp at hlen
      omega
    obtain ⟨b, l, hbl⟩ := List.exists_cons_of_ne_nil hne2
    show (world_to_screen_static 0 0 :: (interpLoop resolution (0, 0, 0)
      [⟨Gear.Forward, Steering.Left, Real.pi / 2⟩]).2).getLast? = _
    rw [hloop2, hpe, List.append_nil, hbl, List.getLast?_cons_cons, ← hbl, hlast]

/-- C10: for every non-empty path the interpolator output is non-empty and
starts with the projected start point, and whenever
`calculate_selected_path` stores a point buffer, that buffer is
non-empty (the zero-point drop branch never stores an empty entry). -/
theorem nonempty_path_points_invariant :
    (∀ (start_pose : Pose) (path : RSPath) (resolution : ℝ), path ≠ [] →
      (generate_path_points start_pose path resolution).head? =
        some (world_to_screen_static start_pose.x start_pose.y) ∧
      generate_path_points start_pose path resolution ≠ []) ∧
    (∀ (lib : PlannerLib) (s : State) (ps : List Vec2),
      (calculate_selected_path lib s).current_path_points = some ps → ps ≠ []) := by
  constructor
  · intro start_pose path resolution hne
    obtain ⟨e, rest, rfl⟩ := List.exists_cons_of_ne_nil hne
    exact ⟨rfl, by simp [generate_path_points]⟩
  · intro lib s ps h
    unfold calculate_selected_path at h
    cases hstart : s.start_pose with
    | none => rw [hstart] at h; cases hend : s.end_pose <;> rw [hend] at h <;> simp at h
    | some start =>
        rw [hstart] at h
        cases hend : s.end_pose with
        | none => rw [hend] at h; simp at h
        | some epose =>
            rw [hend] at h
            simp only at h
            repeat' split at h
            all_goals simp only [Option.some.injEq] at h
            all_goals first
              | exact Option.noConfusion h
              | (subst h
                 intro hnil
                 simp_all)

theorem nonempty_path_points_invariant_witness :
    (generate_path_points ⟨0, 0, 0⟩ [⟨Gear.Forward, Steering.Straight, 1⟩] 1).head? =
      some (world_to_screen_static 0 0) ∧
    generate_path_points ⟨0, 0, 0⟩ [⟨Gear.Forward, Steering.Straight, 1⟩] 1 ≠ [] :=
  nonempty_path_points_invariant.1 ⟨0, 0, 0⟩
    [⟨Gear.Forward, Steering.Straight, 1⟩] 1 (by simp)
